import Mathlib

/-!
Shallow embedding of the git-diff-to-scannable-unit pipeline of ggshield
(`src/ggshield/scan/scannable.py` and the IaC prepush/output modules).

Python strings are modelled as `List Char` (Python `len`/slicing count code
points, as `List Char` does).  Fallible code is modelled with `Except`/`Option`:
a Python function that can raise becomes a Lean function into `Except`, and the
consumer patterns (`list(generator)`) mean an exception yields no elements at
all, which `Except.error` captures.
-/

namespace GgshieldSpec

deriving instance DecidableEq for Except

/-- Python `str.split(sep)` for a single-character separator: `n` separators
give `n+1` (possibly empty) parts. -/
def pySplitChar (sep : Char) : List Char → List (List Char)
  | [] => [[]]
  | c :: cs =>
    match pySplitChar sep cs with
    | [] => [[]]
    | p :: ps => if c = sep then [] :: p :: ps else (c :: p) :: ps

/-- Python `str.rstrip(chars)`: remove the trailing characters belonging to
`bad`. -/
def pyRstrip (bad : List Char) (l : List Char) : List Char :=
  (l.reverse.dropWhile (fun c => c ∈ bad)).reverse

/-- Python `s.rsplit(sep, 1)[-1]` for a single-character separator: the suffix
after the last occurrence of `sep`, or the whole string if `sep` is absent. -/
def pyRsplitLast (sep : Char) (l : List Char) : List Char :=
  (l.reverse.takeWhile (fun c => c ≠ sep)).reverse

/-- Index of the first occurrence of the substring `pat` in `l`
(Python `str.index`/`str.find`), or `none`. -/
def findSubstrIdx (pat : List Char) : List Char → Option Nat
  | [] => if pat.isPrefixOf ([] : List Char) then some 0 else none
  | c :: rest =>
    if pat.isPrefixOf (c :: rest) then some 0
    else (findSubstrIdx pat rest).map (fun n => n + 1)

/-- Python `pat in s` substring containment. -/
def containsSub (pat : List Char) (l : List Char) : Bool :=
  (findSubstrIdx pat l).isSome

/-- Python `s.split(sep, 1)` for a multi-character separator, reported as
`none` when the separator is absent (Python then returns the 1-element list
`[s]`) and `some (before, after)` otherwise. -/
def splitOnceSub (sep : List Char) : List Char → Option (List Char × List Char)
  | [] => if sep.isPrefixOf ([] : List Char) then some ([], []) else none
  | c :: rest =>
    if sep.isPrefixOf (c :: rest) then some ([], (c :: rest).drop sep.length)
    else (splitOnceSub sep rest).map (fun p => (c :: p.1, p.2))

/-- UTF-8 byte length of a string (Python `len(s.encode("utf-8"))`). -/
def utf8Len (l : List Char) : Nat :=
  (l.map Char.utf8Size).sum

/-- `ggshield.core.utils.Filemode`. -/
inductive Filemode where
  | FILE
  | NEW
  | MODIFY
  | RENAME
  | DELETE
  deriving DecidableEq, Repr, Inhabited

def nulChar : Char := Char.ofNat 0

def digitChars : List Char := ['0', '1', '2', '3', '4', '5', '6', '7', '8', '9']

/-- Structured counterpart of the exceptions `_parse_patch_header_line` can
raise: `unknownStatus` models
`ValueError(f"Can't parse header line {line}: unknown status {status}")` and
carries the offending line and status, `unpackErr` models the `ValueError`
raised by unpacking `prefix, name, *rest` when fewer than two NUL-separated
fields are present. -/
inductive ParseErr where
  | unknownStatus (line : List Char) (status : List Char)
  | unpackErr (line : List Char)
  deriving DecidableEq, Repr

/-- The status-and-score token of a raw-patch header record:
`prefix.rsplit(" ", 1)[-1].rstrip("0123456789")`. -/
def statusOfPfx (pfx : List Char) : List Char :=
  pyRstrip digitChars (pyRsplitLast ' ' pfx)

/-- The name picked by `_parse_patch_header_line`: the third NUL-separated
field (the new name of a rename/copy) when present, otherwise the second. -/
def headerName (nm : List Char) (rest : List (List Char)) : List Char :=
  match rest with
  | [] => nm
  | n :: _ => n

/-- `_parse_patch_header_line` from `scannable.py`. -/
def parsePatchHeaderLine (line : List Char) : Except ParseErr (List Char × Filemode) :=
  match pySplitChar nulChar (pyRstrip [nulChar] line) with
  | pfx :: nm :: rest =>
    let name := headerName nm rest
    let status := statusOfPfx pfx
    if 'M' ∈ status then .ok (name, .MODIFY)
    else if 'C' ∈ status then .ok (name, .NEW)
    else if 'A' ∈ status then .ok (name, .NEW)
    else if 'T' ∈ status then .ok (name, .NEW)
    else if 'R' ∈ status then .ok (name, .RENAME)
    else if 'D' ∈ status then .ok (name, .DELETE)
    else .error (.unknownStatus line status)
  | _ => .error (.unpackErr line)

/-- Split on the regex `[\n\0]:` (the separator `_RX_HEADER_LINE_SEPARATOR`):
leftmost non-overlapping matches of a newline-or-NUL followed by `:`, both
characters consumed.  `_parse_patch_header` re-prepends the `:`. -/
def splitHeaderRecords : List Char → List (List Char)
  | [] => [[]]
  | [c] => [[c]]
  | a :: b :: rest =>
    if (a = '\n' ∨ a = nulChar) ∧ b = ':' then
      [] :: splitHeaderRecords rest
    else
      match splitHeaderRecords (b :: rest) with
      | [] => [[a]]
      | p :: ps => (a :: p) :: ps

/-- `_parse_patch_header`: the raw header records, with the first split element
(commit info and message) dropped; each record is parsed with `:` re-prepended.
The list is the sequence of records still to parse — errors surface lazily, in
`commitGetFilesLoop` below, exactly as the Python generator raises during
`zip` iteration. -/
def parsePatchHeaderRecords (header : List Char) : List (List Char) :=
  (splitHeaderRecords header).drop 1

/-- Split on the regex `^diff ` with `re.MULTILINE`: the keyword `diff ` is a
match when it stands at the start of the string or right after a newline.  The
`Bool` argument tracks whether the current position is a line start. -/
def splitDiffs : Bool → List Char → List (List Char)
  | true, 'd' :: 'i' :: 'f' :: 'f' :: ' ' :: rest => [] :: splitDiffs false rest
  | _, [] => [[]]
  | _, c :: rest =>
    match splitDiffs (c = '\n') rest with
    | [] => [[c]]
    | p :: ps => (c :: p) :: ps

/-- A `File`/`CommitFile` from `scannable.py`: `File.__init__` always sets
`filemode = Filemode.FILE`, `CommitFile.__init__` overrides it. -/
structure FileM where
  document : List Char
  filename : List Char
  filemode : Filemode
  deriving DecidableEq, Repr, Inhabited

/-- `File(document, filename)`: a plain file, `filemode` is `FILE`. -/
def mkFile (document filename : List Char) : FileM :=
  ⟨document, filename, .FILE⟩

/-- The hunk-start marker `"\n@@"` searched for by `Commit.get_files`. -/
def hunkMarker : List Char := ['\n', '@', '@']

/-- The body of the per-file loop of `Commit.get_files`, for one
`(filename, filemode)` header entry paired with its diff chunk: exclusion
check, hunk-marker search (`diff.index("\n@@")`, a miss means no content and
the file is skipped), size check, non-emptiness check.

The Python size check is `file_size > MAX_FILE_SIZE * 0.90` with float
arithmetic; it is modelled exactly on integers as `10 * size > 9 * max` (for
the production value `MAX_FILE_SIZE = 2^20` no integer separates
`0.9 * MAX_FILE_SIZE` from the rounded float product, so the two tests
agree). -/
def processDiffPair (excluded : List Char → Bool) (maxFileSize : Nat)
    (filename : List Char) (filemode : Filemode) (diff : List Char) : Option FileM :=
  if excluded filename then none
  else
    match findSubstrIdx hunkMarker diff with
    | none => none
    | some endOfHeaders =>
      let document := diff.drop (endOfHeaders + 1)
      if 10 * utf8Len document > 9 * maxFileSize then none
      else if document ≠ [] then some ⟨document, filename, filemode⟩
      else none

/-- The `zip(names_and_modes, diffs)` loop of `Commit.get_files`.  CPython's
`zip` pulls from its first iterator first, so each header record is parsed
(and can raise) before the diff list is consulted; iteration stops when either
side is exhausted. -/
def commitGetFilesLoop (excluded : List Char → Bool) (maxFileSize : Nat) :
    List (List Char) → List (List Char) → Except ParseErr (List FileM)
  | [], _ => .ok []
  | rec0 :: recs, diffs =>
    match parsePatchHeaderLine (':' :: rec0) with
    | .error e => .error e
    | .ok (filename, filemode) =>
      match diffs with
      | [] => .ok []
      | diff :: drest =>
        match commitGetFilesLoop excluded maxFileSize recs drest with
        | .error e => .error e
        | .ok fs =>
          match processDiffPair excluded maxFileSize filename filemode diff with
          | none => .ok fs
          | some f => .ok (f :: fs)

/-- The wrapped exception of `Commit.get_files`:
`PatchParseError(f"Could not parse patch (sha: {self.sha}): {exc}")`, carrying
the commit's sha and the underlying cause. -/
structure PatchParseErrorM where
  sha : Option (List Char)
  cause : ParseErr
  deriving DecidableEq, Repr

/-- The separator of `patch.split("\0diff ", 1)`. -/
def nulDiffSep : List Char := [nulChar, 'd', 'i', 'f', 'f', ' ']

/-- `Commit.get_files`, consumed as `list(self.get_files())` (the `files`
property): the patch is split into header and body, the header records are
paired with the body chunks, and any exception is wrapped into a
`PatchParseError` naming the commit — in which case no file list is produced
at all.  `excluded` stands for
`is_filepath_excluded(·, self.exclusion_regexes)`. -/
def commitGetFiles (sha : Option (List Char)) (excluded : List Char → Bool)
    (maxFileSize : Nat) (patch : List Char) : Except PatchParseErrorM (List FileM) :=
  match splitOnceSub nulDiffSep patch with
  | none => .ok []
  | some (header, rest) =>
    let recs := parsePatchHeaderRecords header
    let diffs := splitDiffs true rest
    match commitGetFilesLoop excluded maxFileSize recs diffs with
    | .ok fs => .ok fs
    | .error e => .error ⟨sha, e⟩

/-- The payload shape produced by `File.scan_dict`:
`{"filename": ..., "document": ..., "filemode": ...}`. -/
structure PayloadM where
  filename : List Char
  document : List Char
  filemode : Filemode
  deriving DecidableEq, Repr

/-- `File.scan_dict`: the filename is sent unchanged when its length is at
most 256 characters, otherwise only its trailing 255 characters
(`self.filename[-255:]`). -/
def scan_dict (f : FileM) : PayloadM :=
  { filename :=
      if f.filename.length ≤ 256 then f.filename
      else f.filename.drop (f.filename.length - 255)
    document := f.document
    filemode := f.filemode }

/-- Insertion into a CPython `dict` built by comprehension: reassigning an
existing key updates the value in place (the key keeps its original position),
a fresh key is appended. -/
def dictInsert (k : List Char) (v : FileM) :
    List (List Char × FileM) → List (List Char × FileM)
  | [] => [(k, v)]
  | (k', v') :: rest =>
    if k' = k then (k', v) :: rest else (k', v') :: dictInsert k v rest

/-- `Files.__init__`: `self._files = {entry.filename: entry for entry in files}`
— an insertion-ordered mapping from filename to file, last write wins. -/
def filesInit (files : List FileM) : List (List Char × FileM) :=
  files.foldl (fun d f => dictInsert f.filename f d) []

/-- The values of the `_files` dict, in iteration order
(`self.files.values()`). -/
def filesValues (d : List (List Char × FileM)) : List FileM :=
  d.map Prod.snd

/-- `Files.apply_filter`: rebuild a `Files` from the values passing
`filter_func`. -/
def apply_filter (d : List (List Char × FileM)) (filterFunc : FileM → Bool) :
    List (List Char × FileM) :=
  filesInit ((filesValues d).filter filterFunc)

/-- `Files.relative_to`: rebuild a `Files` from
`File(file.document, str(Path(file.filename).relative_to(root_path)))` — the
path arithmetic is abstracted as a filename rewriting function; the rebuilt
entries are plain `File`s, so their filemode is `FILE`. -/
def relative_to (d : List (List Char × FileM)) (rew : List Char → List Char) :
    List (List Char × FileM) :=
  filesInit ((filesValues d).map (fun f => mkFile f.document (rew f.filename)))

/-- `Files.scannable_list`: the payloads of the collection, in dict iteration
order. -/
def scannable_list (d : List (List Char × FileM)) : List PayloadM :=
  (filesValues d).map scan_dict

/-- The chunking loop of `Files.scan`:
`for i in range(0, len(l), limit): chunks.append(l[i : i + limit])`.
Faithful for every `limit ≥ 1`; Python raises `ValueError` on a zero step, so
`limit = 0` never occurs (the production value `MULTI_DOCUMENT_LIMIT` is a
positive constant of the client library). -/
def chunkScannables (limit : Nat) : List PayloadM → List (List PayloadM)
  | [] => []
  | x :: xs =>
    (x :: xs.take (limit - 1)) :: chunkScannables limit (xs.drop (limit - 1))
termination_by l => l.length
decreasing_by
  simp only [List.length_drop, List.length_cons]
  omega

/-- A per-document scan result as seen after the response is decoded
(`pygitguardian.models.ScanResult`): for this pipeline only its policy breaks
matter.  `β` is the (opaque) type of policy breaks. -/
structure ScannedDoc (β : Type) where
  policyBreaks : List β
  deriving DecidableEq, Repr

/-- The `Result` named tuple of `scannable.py`. -/
structure ResultM (β : Type) where
  content : List Char
  filemode : Filemode
  filename : List Char
  scan : ScannedDoc β
  deriving DecidableEq, Repr

/-- The `Error` named tuple of `scannable.py`. -/
structure ErrorM where
  files : List (List Char × Filemode)
  description : List Char
  deriving DecidableEq, Repr

/-- The `Results` dataclass of `scannable.py`. -/
structure ResultsM (β : Type) where
  results : List (ResultM β)
  errors : List ErrorM
  deriving DecidableEq, Repr

/-- What a chunk's future delivers to the `as_completed` loop:
`exc` — `future.exception()` is set (transport-layer failure; the code then
builds `Detail(detail=str(exception))`, whose `success` is false);
`detail` — the call returned a service-level `Detail` failure;
`ok` — a successful response, one `ScanResult` per submitted document. -/
inductive ChunkResponse (β : Type) where
  | exc (msg : List Char)
  | detail (msg : List Char)
  | ok (scanResults : List (ScannedDoc β))
  deriving DecidableEq, Repr

/-- The `(file["filename"], file["filemode"])` list recorded in an `Error`
entry for a failed chunk. -/
def errFiles (chunk : List PayloadM) : List (List Char × Filemode) :=
  chunk.map (fun f => (f.filename, f.filemode))

/-- The `for index, scanned in enumerate(scan.scan_results)` loop for one
successful chunk.  `filterScanned` stands for the composition of
`remove_ignored_from_result` and `remove_results_from_ignore_detectors`
(modelled from the spec: repository code outside `src/`, described as
suppressing findings matching ignore rules and excluded detectors).  The loop
indexes `chunk[index]`; Python raises `IndexError` — escaping `Files.scan` —
when the response holds more results than the chunk holds documents, which
`.error ()` models.  Returns the appended `Result`s (in document index order)
and the `(policy_break, filename)` pairs handed to
`cache.add_found_policy_break`. -/
def processOkChunkAux (filterScanned : ScannedDoc β → ScannedDoc β)
    (chunk : List PayloadM) :
    Nat → List (ScannedDoc β) → Except Unit (List (ResultM β) × List (β × List Char))
  | _, [] => .ok ([], [])
  | index, scanned :: rest =>
    match chunk[index]? with
    | none => .error ()
    | some payload =>
      let s := filterScanned scanned
      match processOkChunkAux filterScanned chunk (index + 1) rest with
      | .error e => .error e
      | .ok (rs, cs) =>
        if s.policyBreaks.isEmpty then .ok (rs, cs)
        else
          .ok (⟨payload.document, payload.filemode, payload.filename, s⟩ :: rs,
            s.policyBreaks.map (fun pb => (pb, payload.filename)) ++ cs)

/-- Specification-side description of one successful chunk's appended results:
documents paired positionally with their scan results, kept when the filtered
result still has policy breaks, in document order. -/
def chunkOkResults (filterScanned : ScannedDoc β → ScannedDoc β)
    (chunk : List PayloadM) (scanResults : List (ScannedDoc β)) : List (ResultM β) :=
  (chunk.zip scanResults).filterMap (fun pr =>
    let s := filterScanned pr.2
    if s.policyBreaks.isEmpty then none
    else some ⟨pr.1.document, pr.1.filemode, pr.1.filename, s⟩)

/-- The `for future in concurrent.futures.as_completed(...)` loop of
`Files.scan`.  Its input is the list of `(chunk, response)` pairs in the order
the futures complete — any permutation of the submitted chunks.  A transport
exception records an `Error` entry (the subsequent `scan.success` test is
false, so the chunk is then skipped); a service-level `detail` failure only
calls `handle_scan_chunk_error`, which (modelled from the spec: repository
code outside `src/`) displays the problem and records nothing.  Results,
errors and cache additions accumulate in completion order. -/
def filesScanLoop (filterScanned : ScannedDoc β → ScannedDoc β) :
    List (List PayloadM × ChunkResponse β) →
    Except Unit (List (ResultM β) × List ErrorM × List (β × List Char))
  | [] => .ok ([], [], [])
  | (chunk, resp) :: rest =>
    match resp with
    | .exc msg =>
      match filesScanLoop filterScanned rest with
      | .error e => .error e
      | .ok (rs, es, cs) => .ok (rs, ⟨errFiles chunk, msg⟩ :: es, cs)
    | .detail _ => filesScanLoop filterScanned rest
    | .ok scanResults =>
      match processOkChunkAux filterScanned chunk 0 scanResults with
      | .error e => .error e
      | .ok (rs1, cs1) =>
        match filesScanLoop filterScanned rest with
        | .error e => .error e
        | .ok (rs, es, cs) => .ok (rs1 ++ rs, es, cs1 ++ cs)

/-- `Files.scan` for a given completion order: the collection's scannable
list is cut into chunks of at most `MULTI_DOCUMENT_LIMIT` documents by
`chunkScannables`, each chunk is submitted, and the completion loop runs over
the completed futures.  `oracle` is the network: it maps a chunk to its
response.  `completed` is the order `as_completed` yields the chunks in; the
theorems require it to be a permutation of `chunkScannables limit
(scannable_list d)`.  The cache interactions (`purge` before, `save` after)
carry no state the returned `Results` depends on; the recorded
`(policy_break, filename)` pairs are returned alongside. -/
def filesScan (filterScanned : ScannedDoc β → ScannedDoc β)
    (oracle : List PayloadM → ChunkResponse β)
    (completed : List (List PayloadM)) :
    Except Unit (ResultsM β × List (β × List Char)) :=
  match filesScanLoop filterScanned (completed.map (fun c => (c, oracle c))) with
  | .error e => .error e
  | .ok (rs, es, cs) => .ok (⟨rs, es⟩, cs)

/-- The `ScanCollection` named tuple, restricted to the fields
`get_all_results` and `scans_with_results` read: `results` and `scans` (both
optional, defaulting to `None`). -/
inductive ScanCollectionM (β : Type) where
  | mk (results : Option (ResultsM β)) (scans : Option (List (ScanCollectionM β)))

/-- The `results` field. -/
def ScanCollectionM.resultsOf : ScanCollectionM β → Option (ResultsM β)
  | .mk r _ => r

/-- The `scans` field. -/
def ScanCollectionM.scansOf : ScanCollectionM β → Option (List (ScanCollectionM β))
  | .mk _ s => s

/-- The `for scan in self.scans: yield from scan.results.results` loop of
`get_all_results`: a sub-scan whose `results` is `None` raises
`AttributeError` (`None` has no attribute `results`), modelled by
`.error ()`. -/
def getAllResultsScans : List (ScanCollectionM β) → Except Unit (List (ResultM β))
  | [] => .ok []
  | s :: rest =>
    match s.resultsOf with
    | none => .error ()
    | some r =>
      match getAllResultsScans rest with
      | .error e => .error e
      | .ok tail => .ok (r.results ++ tail)

/-- `ScanCollection.get_all_results`, consumed as a list.  Python truthiness:
`if self.results:` is true for any non-`None` `Results` dataclass, and
`if self.scans:` is true only for a non-`None`, non-empty list. -/
def get_all_results (sc : ScanCollectionM β) : Except Unit (List (ResultM β)) :=
  let own : List (ResultM β) :=
    match sc.resultsOf with
    | none => []
    | some r => r.results
  match sc.scansOf with
  | none => .ok own
  | some l =>
    if l.isEmpty then .ok own
    else
      match getAllResultsScans l with
      | .error e => .error e
      | .ok sub => .ok (own ++ sub)

/-- `ScanCollection.scans_with_results`:
`[scan for scan in self.scans if scan.results]` when `self.scans` is truthy,
`[]` otherwise. -/
def scans_with_results (sc : ScanCollectionM β) : List (ScanCollectionM β) :=
  match sc.scansOf with
  | none => []
  | some l =>
    if l.isEmpty then []
    else l.filter (fun s => s.resultsOf.isSome)

/-- Modelled from the spec: `EMPTY_SHA` from `ggshield.core.utils` (not under
`src/`), "the zero SHA" — forty `'0'` characters. -/
def EMPTY_SHA : List Char := List.replicate 40 '0'

/-- The remote-commit normalization of `scan_pre_push_cmd`:
`if "~1" in remote_commit or remote_commit == EMPTY_SHA: remote_commit = None`
(the first push on a branch has no remote reference). -/
def normalizeRemoteCommit (remoteCommit : List Char) : Option (List Char) :=
  if containsSub ['~', '1'] remoteCommit ∨ remoteCommit = EMPTY_SHA then none
  else some remoteCommit

/-- The three partitions of a diff scan result
(`entities_with_incidents.new/unchanged/deleted`).  `ι` is the (opaque) type
of finding identities. -/
structure DiffResultM (ι : Type) where
  new : List ι
  unchanged : List ι
  deleted : List ι
  deriving DecidableEq, Repr

/-- Modelled from the spec: the Diff Reconciler (`iac_scan_diff`, not under
`src/`) — "three disjoint partitions: `new` (present in current, absent in
baseline), `unchanged` (present in both), `deleted` (present in baseline,
absent in current)"; "absence of a baseline ... is treated as an empty
baseline set — in that case all current findings are classified `new`".  A
`none` reference (no remote commit) means an absent baseline;
`baselineOf ref` is the finding set obtained by scanning reference `ref`. -/
def diffReconcile [DecidableEq ι] (baselineOf : List Char → List ι)
    (reference : Option (List Char)) (current : List ι) : DiffResultM ι :=
  match reference with
  | none => ⟨current, [], []⟩
  | some ref =>
    let base := baselineOf ref
    ⟨current.filter (fun i => i ∉ base),
      current.filter (fun i => i ∈ base),
      base.filter (fun i => i ∉ current)⟩

/-- The output shape of `IaCJSONOutputHandler.create_diff_scan_dict`. -/
structure DiffScanDict (ι : Type) where
  added_vulns : List ι
  persisting_vulns : List ι
  removed_vulns : List ι
  deriving DecidableEq, Repr

/-- `IaCJSONOutputHandler.create_diff_scan_dict`: starts from three empty
lists and, when the scan has a result, appends every `new` incident to
`added_vulns`, every `unchanged` incident to `persisting_vulns` and every
`deleted` incident to `removed_vulns`. -/
def create_diff_scan_dict (result : Option (DiffResultM ι)) : DiffScanDict ι :=
  match result with
  | none => ⟨[], [], []⟩
  | some r => ⟨r.new, r.unchanged, r.deleted⟩

/-- The pre-push diff pipeline of `scan_pre_push_cmd` followed by the JSON
output handler: normalize the remote commit, reconcile against the (possibly
absent) baseline, shape the output. -/
def prePushDiffScan [DecidableEq ι] (baselineOf : List Char → List ι)
    (remoteCommit : List Char) (current : List ι) : DiffScanDict ι :=
  create_diff_scan_dict
    (some (diffReconcile baselineOf (normalizeRemoteCommit remoteCommit) current))

/-! ## Theorems -/

/-- C1: For every raw-patch header record that unpacks into at least two
NUL-separated fields, the status string (the trailing space-delimited token of
the prefix with trailing digits stripped) is resolved to a filemode by the
fixed precedence `M`→MODIFY, else `C`→NEW, else `A`→NEW, else `T`→NEW, else
`R`→RENAME, else `D`→DELETE; in particular, for every merge-commit status
string containing both `M` and `D`, the parser returns MODIFY. -/
theorem parse_header_line_status_precedence (line pfx nm : List Char)
    (rest : List (List Char))
    (hsplit : pySplitChar nulChar (pyRstrip [nulChar] line) = pfx :: nm :: rest) :
    ('M' ∈ statusOfPfx pfx →
      parsePatchHeaderLine line = .ok (headerName nm rest, .MODIFY)) ∧
    ('M' ∉ statusOfPfx pfx → 'C' ∈ statusOfPfx pfx →
      parsePatchHeaderLine line = .ok (headerName nm rest, .NEW)) ∧
    ('M' ∉ statusOfPfx pfx → 'C' ∉ statusOfPfx pfx → 'A' ∈ statusOfPfx pfx →
      parsePatchHeaderLine line = .ok (headerName nm rest, .NEW)) ∧
    ('M' ∉ statusOfPfx pfx → 'C' ∉ statusOfPfx pfx → 'A' ∉ statusOfPfx pfx →
      'T' ∈ statusOfPfx pfx →
      parsePatchHeaderLine line = .ok (headerName nm rest, .NEW)) ∧
    ('M' ∉ statusOfPfx pfx → 'C' ∉ statusOfPfx pfx → 'A' ∉ statusOfPfx pfx →
      'T' ∉ statusOfPfx pfx → 'R' ∈ statusOfPfx pfx →
      parsePatchHeaderLine line = .ok (headerName nm rest, .RENAME)) ∧
    ('M' ∉ statusOfPfx pfx → 'C' ∉ statusOfPfx pfx → 'A' ∉ statusOfPfx pfx →
      'T' ∉ statusOfPfx pfx → 'R' ∉ statusOfPfx pfx → 'D' ∈ statusOfPfx pfx →
      parsePatchHeaderLine line = .ok (headerName nm rest, .DELETE)) ∧
    ('M' ∈ statusOfPfx pfx ∧ 'D' ∈ statusOfPfx pfx →
      parsePatchHeaderLine line = .ok (headerName nm rest, .MODIFY)) := by
  unfold parsePatchHeaderLine
  rw [hsplit]
  refine ⟨fun hM => by simp [hM], fun hM hC => by simp [hM, hC],
    fun hM hC hA => by simp [hM, hC, hA],
    fun hM hC hA hT => by simp [hM, hC, hA, hT],
    fun hM hC hA hT hR => by simp [hM, hC, hA, hT, hR],
    fun hM hC hA hT hR hD => by simp [hM, hC, hA, hT, hR, hD],
    fun h => by simp [h.1]⟩

/-- Witness for C1: a two-parent merge record whose status string is `MD`
resolves to MODIFY. -/
theorem parse_header_line_status_precedence_witness :
    pySplitChar nulChar
        (pyRstrip [nulChar] ("::100644 100644 100644 a b c MD\u0000file".toList)) =
      ["::100644 100644 100644 a b c MD".toList, "file".toList] ∧
    parsePatchHeaderLine ("::100644 100644 100644 a b c MD\u0000file".toList) =
      .ok ("file".toList, .MODIFY) :=
  ⟨by decide,
    (parse_header_line_status_precedence
        ("::100644 100644 100644 a b c MD\u0000file".toList)
        ("::100644 100644 100644 a b c MD".toList) ("file".toList) []
        (by decide)).2.2.2.2.2.2
      ⟨by decide, by decide⟩⟩

/-- C4: A header record whose status string contains none of the letters
M, C, A, T, R, D parses to the fatal `unknownStatus` failure referencing that
status; and whenever extracting a commit's files fails, the failure is the
single wrapped parse error naming the source commit, and no file list is
produced at all (the `files` property materializes `list(self.get_files())`,
so an exception yields no files past the failure). -/
theorem unknown_status_wrapped_failure :
    (∀ (line pfx nm : List Char) (rest : List (List Char)),
      pySplitChar nulChar (pyRstrip [nulChar] line) = pfx :: nm :: rest →
      'M' ∉ statusOfPfx pfx → 'C' ∉ statusOfPfx pfx → 'A' ∉ statusOfPfx pfx →
      'T' ∉ statusOfPfx pfx → 'R' ∉ statusOfPfx pfx → 'D' ∉ statusOfPfx pfx →
      parsePatchHeaderLine line = .error (.unknownStatus line (statusOfPfx pfx))) ∧
    (∀ (sha : Option (List Char)) (excluded : List Char → Bool)
      (maxFileSize : Nat) (patch : List Char) (e : PatchParseErrorM),
      commitGetFiles sha excluded maxFileSize patch = .error e →
      e.sha = sha ∧ ∀ fs, commitGetFiles sha excluded maxFileSize patch ≠ .ok fs) := by
  constructor
  · intro line pfx nm rest hsplit hM hC hA hT hR hD
    unfold parsePatchHeaderLine
    rw [hsplit]
    simp [hM, hC, hA, hT, hR, hD]
  · intro sha excluded maxFileSize patch e herr
    refine ⟨?_, fun fs hok => ?_⟩
    · unfold commitGetFiles at herr
      split at herr
      · exact Except.noConfusion herr
      · dsimp only at herr
        split at herr
        · exact Except.noConfusion herr
        · injection herr with h
          rw [← h]
    · rw [hok] at herr
      exact Except.noConfusion herr

/-- Witness for C4: parsing the status letter `X` fails referencing `X`, and a
patch containing that record makes `commitGetFiles` return the wrapped error
naming the commit sha. -/
theorem unknown_status_wrapped_failure_witness :
    parsePatchHeaderLine (":1 1 a b X\u0000f".toList) =
      .error (.unknownStatus (":1 1 a b X\u0000f".toList) ['X']) ∧
    ((⟨some ("abc".toList),
        .unknownStatus (":1 1 a b X\u0000f1\u0000".toList) ['X']⟩ : PatchParseErrorM).sha =
      some ("abc".toList) ∧
      ∀ fs, commitGetFiles (some ("abc".toList)) (fun _ => false) 1000000
          ("c\n:1 1 a b X\u0000f1\u0000\u0000diff x\n@@ -1 @@\nq\n".toList) ≠ .ok fs) :=
  ⟨by
    have h := unknown_status_wrapped_failure.1 (":1 1 a b X\u0000f".toList)
      (":1 1 a b X".toList) ("f".toList) [] (by decide)
      (by decide) (by decide) (by decide) (by decide) (by decide) (by decide)
    exact h.trans (by rfl),
    unknown_status_wrapped_failure.2 (some ("abc".toList)) (fun _ => false) 1000000
      ("c\n:1 1 a b X\u0000f1\u0000\u0000diff x\n@@ -1 @@\nq\n".toList)
      ⟨some ("abc".toList), .unknownStatus (":1 1 a b X\u0000f1\u0000".toList) ['X']⟩
      (by decide)⟩

/-- C7: The transport payload's filename equals the file's filename when its
length is at most 256 characters, and otherwise equals its trailing 255
characters (a suffix of length 255, not a leading segment); the payload's
document and filemode equal the file's fields unchanged. -/
theorem scan_dict_filename_truncation (f : FileM) :
    (f.filename.length ≤ 256 → (scan_dict f).filename = f.filename) ∧
    (256 < f.filename.length →
      (scan_dict f).filename = f.filename.drop (f.filename.length - 255) ∧
      (scan_dict f).filename.length = 255 ∧
      (scan_dict f).filename <:+ f.filename) ∧
    (scan_dict f).document = f.document ∧
    (scan_dict f).filemode = f.filemode := by
  refine ⟨fun hle => ?_, fun hgt => ?_, rfl, rfl⟩
  · simp [scan_dict, hle]
  · have hif : (scan_dict f).filename = f.filename.drop (f.filename.length - 255) := by
      simp [scan_dict, Nat.not_le.mpr hgt]
    refine ⟨hif, ?_, ?_⟩
    · rw [hif, List.length_drop]
      omega
    · rw [hif]
      exact List.drop_suffix _ _

/-- Witness for C7: a filename of 300 `'a'`s is sent as its trailing 255
characters. -/
theorem scan_dict_filename_truncation_witness :
    256 < (List.replicate 300 'a').length ∧
    (scan_dict ⟨"d".toList, List.replicate 300 'a', .FILE⟩).filename =
      List.replicate 255 'a' := by
  have hlen : (List.replicate 300 'a').length = 300 := List.length_replicate 300 'a'
  have h := (scan_dict_filename_truncation
    ⟨"d".toList, List.replicate 300 'a', .FILE⟩).2.1 (by rw [hlen]; omega)
  refine ⟨by rw [hlen]; omega, h.1.trans ?_⟩
  rw [hlen, List.drop_replicate]

/-- The keys of the `_files` dict, in iteration order. -/
def dictKeys (d : List (List Char × FileM)) : List (List Char) :=
  d.map Prod.fst

/-- Lookup in the `_files` dict. -/
def dictLookup (k : List Char) : List (List Char × FileM) → Option FileM
  | [] => none
  | (k', v) :: rest => if k' = k then some v else dictLookup k rest

/-- The last file of a list carrying a given filename, if any. -/
def lastWith (k : List Char) : List FileM → Option FileM
  | [] => none
  | f :: rest =>
    match lastWith k rest with
    | some g => some g
    | none => if f.filename = k then some f else none

theorem dictKeys_dictInsert (k : List Char) (v : FileM)
    (d : List (List Char × FileM)) :
    dictKeys (dictInsert k v d) =
      if k ∈ dictKeys d then dictKeys d else dictKeys d ++ [k] := by
  induction d with
  | nil => simp [dictInsert, dictKeys]
  | cons hd tl ih =>
    obtain ⟨k', v'⟩ := hd
    by_cases hk : k' = k
    · subst hk
      simp [dictInsert, dictKeys]
    · have hne : k ≠ k' := fun h => hk h.symm
      simp only [dictKeys, List.map_cons] at ih ⊢
      simp only [dictInsert, if_neg hk, List.map_cons, ih, List.mem_cons, hne,
        false_or]
      by_cases hmem : k ∈ List.map Prod.fst tl
      · simp [hmem]
      · simp [hmem]

theorem dictInsert_nodup (k : List Char) (v : FileM)
    (d : List (List Char × FileM)) (h : (dictKeys d).Nodup) :
    (dictKeys (dictInsert k v d)).Nodup := by
  rw [dictKeys_dictInsert]
  by_cases hmem : k ∈ dictKeys d
  · simpa [hmem] using h
  · simp [hmem, List.nodup_append, h]

theorem dictLookup_dictInsert (k k' : List Char) (v : FileM)
    (d : List (List Char × FileM)) :
    dictLookup k (dictInsert k' v d) =
      if k' = k then some v else dictLookup k d := by
  induction d with
  | nil =>
    by_cases h : k' = k
    · simp [dictInsert, dictLookup, h]
    · simp [dictInsert, dictLookup, h]
  | cons hd tl ih =>
    obtain ⟨k'', v''⟩ := hd
    by_cases hk : k'' = k'
    · subst hk
      by_cases hkk : k'' = k
      · simp [dictInsert, dictLookup, hkk]
      · simp [dictInsert, dictLookup, hkk]
    · by_cases hkk : k'' = k
      · subst hkk
        have hk'k : ¬ k' = k'' := fun h => hk h.symm
        simp [dictInsert, dictLookup, hk, hk'k]
      · simp [dictInsert, dictLookup, hk, hkk, ih]

theorem filesInit_foldl_nodup (files : List FileM)
    (d : List (List Char × FileM)) (h : (dictKeys d).Nodup) :
    (dictKeys (files.foldl (fun d f => dictInsert f.filename f d) d)).Nodup := by
  induction files generalizing d with
  | nil => simpa using h
  | cons f rest ih =>
    simp only [List.foldl_cons]
    exact ih _ (dictInsert_nodup _ _ _ h)

theorem filesInit_foldl_lookup (k : List Char) (files : List FileM)
    (d : List (List Char × FileM)) :
    dictLookup k (files.foldl (fun d f => dictInsert f.filename f d) d) =
      match lastWith k files with
      | some g => some g
      | none => dictLookup k d := by
  induction files generalizing d with
  | nil => simp [lastWith]
  | cons f rest ih =>
    simp only [List.foldl_cons, lastWith]
    rw [ih]
    cases hlast : lastWith k rest with
    | some g => simp
    | none =>
      rw [dictLookup_dictInsert]
      by_cases hf : f.filename = k
      · simp [hf]
      · simp [hf]

/-- C5: A `Files` collection never contains two units with the same filename:
the dict built by `Files.__init__` has pairwise-distinct keys, the unit stored
under a filename is exactly the last input file carrying that filename, and
both `apply_filter` and `relative_to` — which rebuild a `Files` — preserve the
distinct-keys invariant. -/
theorem files_collection_unique_filenames (files : List FileM)
    (p : FileM → Bool) (rew : List Char → List Char) :
    (dictKeys (filesInit files)).Nodup ∧
    (∀ k, dictLookup k (filesInit files) = lastWith k files) ∧
    (dictKeys (apply_filter (filesInit files) p)).Nodup ∧
    (dictKeys (relative_to (filesInit files) rew)).Nodup := by
  refine ⟨filesInit_foldl_nodup files [] (by simp [dictKeys]), fun k => ?_, ?_, ?_⟩
  · rw [filesInit, filesInit_foldl_lookup]
    cases lastWith k files with
    | some g => simp
    | none => simp [dictLookup]
  · exact filesInit_foldl_nodup _ [] (by simp [dictKeys])
  · exact filesInit_foldl_nodup _ [] (by simp [dictKeys])

theorem take_cons_pos (limit : Nat) (hpos : 0 < limit)
    (x : PayloadM) (xs : List PayloadM) :
    (x :: xs).take limit = x :: xs.take (limit - 1) := by
  cases limit with
  | zero => omega
  | succ n => simp [List.take_succ_cons]

theorem drop_cons_pos (limit : Nat) (hpos : 0 < limit)
    (x : PayloadM) (xs : List PayloadM) :
    (x :: xs).drop limit = xs.drop (limit - 1) := by
  cases limit with
  | zero => omega
  | succ n => simp [List.drop_succ_cons]

theorem chunkScannables_cons (limit : Nat) (hpos : 0 < limit)
    (x : PayloadM) (xs : List PayloadM) :
    chunkScannables limit (x :: xs) =
      (x :: xs).take limit :: chunkScannables limit ((x :: xs).drop limit) := by
  rw [take_cons_pos limit hpos, drop_cons_pos limit hpos]
  simp [chunkScannables]

theorem chunkScannables_flatten (limit : Nat) (hpos : 0 < limit)
    (l : List PayloadM) : (chunkScannables limit l).flatten = l := by
  induction l using chunkScannables.induct limit with
  | case1 => simp [chunkScannables]
  | case2 x xs ih =>
    rw [chunkScannables_cons limit hpos, List.flatten_cons,
      drop_cons_pos limit hpos, take_cons_pos limit hpos, ih]
    simp [List.take_append_drop]

theorem chunkScannables_size_bound (limit : Nat) (hpos : 0 < limit)
    (l : List PayloadM) :
    ∀ c ∈ chunkScannables limit l, c.length ≤ limit := by
  induction l using chunkScannables.induct limit with
  | case1 => simp [chunkScannables]
  | case2 x xs ih =>
    intro c hc
    rw [chunkScannables_cons limit hpos, drop_cons_pos limit hpos] at hc
    rcases List.mem_cons.mp hc with h | h
    · subst h
      rw [List.length_take]
      omega
    · exact ih c h

/-- C3: `Files.scan` partitions the payload list into contiguous chunks of at
most `limit = MULTI_DOCUMENT_LIMIT` documents, preserving payload order within
and across chunks (the chunks concatenate back to the original list); and a
list of `limit * 2 + 5` payloads (with `5 ≤ limit`, as holds for the
production limit) is cut into exactly 3 chunks of sizes `[limit, limit, 5]`,
in that order. -/
theorem scan_chunking_partition (limit : Nat) (hpos : 0 < limit)
    (l : List PayloadM) :
    (chunkScannables limit l).flatten = l ∧
    (∀ c ∈ chunkScannables limit l, c.length ≤ limit) ∧
    (l.length = limit * 2 + 5 → 5 ≤ limit →
      (chunkScannables limit l).map List.length = [limit, limit, 5]) := by
  refine ⟨chunkScannables_flatten limit hpos l,
    chunkScannables_size_bound limit hpos l, fun hlen h5 => ?_⟩
  have hne1 : l ≠ [] := by
    intro h
    rw [h] at hlen
    simp at hlen
  obtain ⟨x, xs, hx⟩ := List.exists_cons_of_ne_nil hne1
  subst hx
  rw [chunkScannables_cons limit hpos]
  have hlen2 : ((x :: xs).drop limit).length = limit + 5 := by
    rw [List.length_drop]
    omega
  have hne2 : (x :: xs).drop limit ≠ [] := by
    intro h
    rw [h] at hlen2
    simp at hlen2
  obtain ⟨y, ys, hy⟩ := List.exists_cons_of_ne_nil hne2
  rw [hy] at hlen2 ⊢
  rw [chunkScannables_cons limit hpos]
  have hlen3 : ((y :: ys).drop limit).length = 5 := by
    rw [List.length_drop]
    omega
  have hne3 : (y :: ys).drop limit ≠ [] := by
    intro h
    rw [h] at hlen3
    simp at hlen3
  obtain ⟨z, zs, hz⟩ := List.exists_cons_of_ne_nil hne3
  rw [hz] at hlen3 ⊢
  rw [chunkScannables_cons limit hpos]
  have hnil : (z :: zs).drop limit = [] :=
    List.eq_nil_of_length_eq_zero (by rw [List.length_drop]; omega)
  rw [hnil]
  simp only [chunkScannables, List.map_cons, List.map_nil]
  rw [List.length_take, List.length_take, List.length_take, hlen, hlen2, hlen3]
  have e1 : min limit (limit * 2 + 5) = limit := by omega
  have e2 : min limit (limit + 5) = limit := by omega
  have e3 : min limit 5 = 5 := by omega
  rw [e1, e2, e3]

/-- Witness for C3: with a document limit of 20 (the production
`MULTI_DOCUMENT_LIMIT`), 45 payloads are cut into chunks of sizes
`[20, 20, 5]`. -/
theorem scan_chunking_partition_witness :
    (List.replicate 45 (⟨[], [], Filemode.FILE⟩ : PayloadM)).length = 20 * 2 + 5 ∧
    (chunkScannables 20
        (List.replicate 45 (⟨[], [], Filemode.FILE⟩ : PayloadM))).map List.length =
      [20, 20, 5] := by
  have hlen : (List.replicate 45 (⟨[], [], Filemode.FILE⟩ : PayloadM)).length
      = 20 * 2 + 5 := by
    rw [List.length_replicate]
  exact ⟨hlen, (scan_chunking_partition 20 (by omega)
    (List.replicate 45 (⟨[], [], Filemode.FILE⟩ : PayloadM))).2.2 hlen (by omega)⟩

/-- C6: For a commit patch body chunk, no unit is emitted when the extracted
document content (everything after the first hunk marker preceded by a
newline) has UTF-8 byte length exceeding 90% of the maximum allowed unit size
(stated exactly as `10 * size > 9 * max`), when the extracted content is
empty, or when no hunk marker exists in the chunk. -/
theorem oversized_or_empty_document_not_emitted
    (excluded : List Char → Bool) (maxFileSize : Nat)
    (filename : List Char) (filemode : Filemode) (diff : List Char) :
    (∀ idx, findSubstrIdx hunkMarker diff = some idx →
      10 * utf8Len (diff.drop (idx + 1)) > 9 * maxFileSize →
      processDiffPair excluded maxFileSize filename filemode diff = none) ∧
    (∀ idx, findSubstrIdx hunkMarker diff = some idx →
      diff.drop (idx + 1) = [] →
      processDiffPair excluded maxFileSize filename filemode diff = none) ∧
    (findSubstrIdx hunkMarker diff = none →
      processDiffPair excluded maxFileSize filename filemode diff = none) := by
  by_cases hex : excluded filename
  · exact ⟨fun idx h1 h2 => by simp [processDiffPair, hex],
      fun idx h1 h2 => by simp [processDiffPair, hex],
      fun h => by simp [processDiffPair, hex]⟩
  · refine ⟨fun idx h1 h2 => ?_, fun idx h1 h2 => ?_, fun h => ?_⟩
    · simp [processDiffPair, hex, h1, h2]
    · simp [processDiffPair, hex, h1, h2]
    · simp [processDiffPair, hex, h]

/-- Witness for C6: a document of 13 bytes with a unit-size bound of 10 is
skipped (13 · 10 > 9 · 10). -/
theorem oversized_document_not_emitted_witness :
    findSubstrIdx hunkMarker ("x\n@@ -1 +1 @@\nsecret".toList) = some 1 ∧
    10 * utf8Len (("x\n@@ -1 +1 @@\nsecret".toList).drop 2) > 9 * 10 ∧
    processDiffPair (fun _ => false) 10 ("f".toList) .MODIFY
      ("x\n@@ -1 +1 @@\nsecret".toList) = none :=
  ⟨by decide, by decide,
    (oversized_or_empty_document_not_emitted (fun _ => false) 10 ("f".toList)
      .MODIFY ("x\n@@ -1 +1 @@\nsecret".toList)).1 1 (by decide) (by decide)⟩

/-- The results the sub-scan loop of `get_all_results` is expected to yield
when every sub-scan has a `results` field: each listed sub-scan's results, in
list order. -/
def subScanResultsSpec (l : List (ScanCollectionM β)) : List (ResultM β) :=
  (l.map (fun s => ((s.resultsOf).getD ⟨[], []⟩).results)).flatten

theorem getAllResultsScans_ok (l : List (ScanCollectionM β))
    (h : ∀ s ∈ l, s.resultsOf ≠ none) :
    getAllResultsScans l = .ok (subScanResultsSpec l) := by
  induction l with
  | nil => rfl
  | cons s rest ih =>
    cases hs : s.resultsOf with
    | none => exact absurd hs (h s (List.mem_cons_self s rest))
    | some r =>
      have ih2 := ih (fun s' hs' => h s' (List.mem_cons_of_mem s hs'))
      simp [getAllResultsScans, hs, ih2, subScanResultsSpec]

theorem getAllResultsScans_err (l : List (ScanCollectionM β))
    (h : ∃ s ∈ l, s.resultsOf = none) :
    getAllResultsScans l = .error () := by
  induction l with
  | nil => simp at h
  | cons s rest ih =>
    cases hs : s.resultsOf with
    | none => simp [getAllResultsScans, hs]
    | some r =>
      obtain ⟨s', hmem, hnone⟩ := h
      rcases List.mem_cons.mp hmem with heq | hmem'
      · subst heq
        rw [hs] at hnone
        exact Option.noConfusion hnone
      · rw [getAllResultsScans, hs, ih ⟨s', hmem', hnone⟩]

/-- C10: For a `ScanCollection` whose `scans` list is non-empty,
`get_all_results` yields the results of every listed sub-scan and requires
every sub-scan's `results` field to be non-`None`: if all sub-scans carry
results it returns the collection's own results followed by each sub-scan's
results in order, but if any sub-scan has `results = None` it fails with an
attribute error instead of skipping that sub-scan — unlike
`scans_with_results`, which filters such sub-scans out. -/
theorem get_all_results_requires_subscan_results {β : Type}
    (own : Option (ResultsM β)) (l : List (ScanCollectionM β)) (hne : l ≠ []) :
    ((∀ s ∈ l, s.resultsOf ≠ none) →
      get_all_results (.mk own (some l)) =
        .ok ((match own with | none => [] | some r => r.results) ++
          subScanResultsSpec l)) ∧
    ((∃ s ∈ l, s.resultsOf = none) →
      get_all_results (.mk own (some l)) = .error () ∧
      ∀ s ∈ l, s.resultsOf = none → s ∉ scans_with_results (.mk own (some l))) := by
  have hempty : l.isEmpty = false := by
    cases l with
    | nil => exact absurd rfl hne
    | cons a as => rfl
  constructor
  · intro h
    rw [get_all_results]
    simp only [ScanCollectionM.scansOf, ScanCollectionM.resultsOf, hempty,
      Bool.false_eq_true, if_false, getAllResultsScans_ok l h]
  · intro h
    refine ⟨?_, fun s hmem hnone hin => ?_⟩
    · rw [get_all_results]
      simp only [ScanCollectionM.scansOf, ScanCollectionM.resultsOf, hempty,
        Bool.false_eq_true, if_false, getAllResultsScans_err l h]
    · rw [scans_with_results] at hin
      simp only [ScanCollectionM.scansOf, hempty, Bool.false_eq_true,
        if_false] at hin
      have := (List.mem_filter.mp hin).2
      rw [hnone] at this
      exact Bool.noConfusion this

/-- Witness for C10: a collection with a single sub-scan whose `results` is
`None` makes `get_all_results` fail, while `scans_with_results` drops the
sub-scan. -/
theorem get_all_results_requires_subscan_results_witness :
    ([ScanCollectionM.mk (β := Unit) none none] ≠ []) ∧
    get_all_results (ScanCollectionM.mk (β := Unit) none
        (some [ScanCollectionM.mk none none])) = .error () ∧
    (ScanCollectionM.mk (β := Unit) none none) ∉
      scans_with_results (ScanCollectionM.mk (β := Unit) none
        (some [ScanCollectionM.mk none none])) := by
  have h := (get_all_results_requires_subscan_results (β := Unit) none
    [ScanCollectionM.mk none none] (by simp)).2
    ⟨ScanCollectionM.mk none none, List.mem_singleton.mpr rfl, rfl⟩
  exact ⟨by simp, h.1, h.2 _ (List.mem_singleton.mpr rfl) rfl⟩

/-- C9: For a pre-push diff scan whose remote reference is absent — the
remote commit is the zero SHA or a `~1`-relative reference (first push on a
branch) — the reference is normalized to `None`, the reconciler treats the
baseline as empty so every current finding is `new` and the `unchanged` and
`deleted` partitions are empty, and the output partitions
(added/persisting/removed) are exactly the reconciler's new/unchanged/deleted
sets. -/
theorem prepush_absent_baseline_all_new {ι : Type} [DecidableEq ι]
    (baselineOf : List Char → List ι) (remoteCommit : List Char)
    (current : List ι)
    (h : containsSub ['~', '1'] remoteCommit = true ∨ remoteCommit = EMPTY_SHA) :
    normalizeRemoteCommit remoteCommit = none ∧
    diffReconcile baselineOf (normalizeRemoteCommit remoteCommit) current =
      ⟨current, [], []⟩ ∧
    prePushDiffScan baselineOf remoteCommit current = ⟨current, [], []⟩ ∧
    (∀ r : DiffResultM ι,
      create_diff_scan_dict (some r) = ⟨r.new, r.unchanged, r.deleted⟩) := by
  have hnorm : normalizeRemoteCommit remoteCommit = none := by
    rw [normalizeRemoteCommit, if_pos]
    rcases h with h | h
    · exact Or.inl (by rw [h])
    · exact Or.inr h
  refine ⟨hnorm, ?_, ?_, fun r => rfl⟩
  · rw [hnorm]
    rfl
  · rw [prePushDiffScan, hnorm]
    rfl

/-- Witness for C9: pushing with the zero SHA as remote commit and one
current finding yields `added = [finding]`, `persisting = []`,
`removed = []`. -/
theorem prepush_absent_baseline_all_new_witness :
    (containsSub ['~', '1'] EMPTY_SHA = true ∨ EMPTY_SHA = EMPTY_SHA) ∧
    prePushDiffScan (fun _ => [1]) EMPTY_SHA [0] =
      (⟨[0], [], []⟩ : DiffScanDict Nat) :=
  ⟨Or.inr rfl,
    (prepush_absent_baseline_all_new (fun _ => [1]) EMPTY_SHA [0]
      (Or.inr rfl)).2.2.1⟩

/-- Specification-side description of one successful chunk's cache additions:
for each kept document, one `(policy_break, filename)` entry per remaining
policy break, in order. -/
def chunkOkCache (filterScanned : ScannedDoc β → ScannedDoc β)
    (chunk : List PayloadM) (scanResults : List (ScannedDoc β)) :
    List (β × List Char) :=
  ((chunk.zip scanResults).map (fun pr =>
    let s := filterScanned pr.2
    if s.policyBreaks.isEmpty then []
    else s.policyBreaks.map (fun pb => (pb, pr.1.filename)))).flatten

theorem processOkChunkAux_ok (fsc : ScannedDoc β → ScannedDoc β)
    (chunk : List PayloadM) (srs : List (ScannedDoc β)) (index : Nat)
    (h : index + srs.length ≤ chunk.length) :
    processOkChunkAux fsc chunk index srs =
      .ok (chunkOkResults fsc (chunk.drop index) srs,
        chunkOkCache fsc (chunk.drop index) srs) := by
  induction srs generalizing index with
  | nil => simp [processOkChunkAux, chunkOkResults, chunkOkCache]
  | cons scanned rest ih =>
    have hidx : index < chunk.length := by
      simp only [List.length_cons] at h
      omega
    have hdrop : chunk.drop index = chunk[index] :: chunk.drop (index + 1) :=
      (List.getElem_cons_drop chunk index hidx).symm
    rw [processOkChunkAux, List.getElem?_eq_getElem hidx]
    have hrec := ih (index + 1) (by simp only [List.length_cons] at h; omega)
    rw [hrec, hdrop]
    simp only [chunkOkResults, chunkOkCache, List.zip_cons_cons, List.map_cons,
      List.filterMap_cons, List.flatten_cons]
    by_cases hpb : ((fsc scanned).policyBreaks).isEmpty
    · simp [hpb]
    · simp [hpb]

/-- The results one completed `(chunk, response)` pair appends: a failed
chunk appends nothing, a successful one appends its kept documents. -/
def chunkResultContribution (fsc : ScannedDoc β → ScannedDoc β) :
    List PayloadM × ChunkResponse β → List (ResultM β)
  | (chunk, .ok srs) => chunkOkResults fsc chunk srs
  | (_, .exc _) => []
  | (_, .detail _) => []

/-- The `Error` entries one completed pair appends: exactly one for a
transport exception, none otherwise. -/
def chunkErrorContribution : List PayloadM × ChunkResponse β → List ErrorM
  | (chunk, .exc msg) => [⟨errFiles chunk, msg⟩]
  | (_, .ok _) => []
  | (_, .detail _) => []

/-- The cache additions one completed pair appends. -/
def chunkCacheContribution (fsc : ScannedDoc β → ScannedDoc β) :
    List PayloadM × ChunkResponse β → List (β × List Char)
  | (chunk, .ok srs) => chunkOkCache fsc chunk srs
  | (_, .exc _) => []
  | (_, .detail _) => []

/-- The completion loop, evaluated: when every successful response carries at
most one scan result per submitted document, the loop succeeds and its
results, errors and cache additions are the concatenation of the per-pair
contributions, in completion order. -/
theorem filesScanLoop_ok (fsc : ScannedDoc β → ScannedDoc β)
    (completed : List (List PayloadM × ChunkResponse β))
    (hwf : ∀ p ∈ completed, ∀ srs, p.2 = ChunkResponse.ok srs →
      srs.length ≤ p.1.length) :
    filesScanLoop fsc completed =
      .ok ((completed.map (chunkResultContribution fsc)).flatten,
        (completed.map chunkErrorContribution).flatten,
        (completed.map (chunkCacheContribution fsc)).flatten) := by
  induction completed with
  | nil => rfl
  | cons p rest ih =>
    obtain ⟨chunk, resp⟩ := p
    have ih2 := ih (fun q hq srs hsrs => hwf q (List.mem_cons_of_mem _ hq) srs hsrs)
    cases resp with
    | exc msg =>
      rw [filesScanLoop, ih2]
      simp [chunkResultContribution, chunkErrorContribution,
        chunkCacheContribution]
    | detail msg =>
      rw [filesScanLoop, ih2]
      simp [chunkResultContribution, chunkErrorContribution,
        chunkCacheContribution]
    | ok srs =>
      have hlen : srs.length ≤ chunk.length :=
        hwf (chunk, .ok srs) (List.mem_cons_self _ _) srs rfl
      rw [filesScanLoop,
        processOkChunkAux_ok fsc chunk srs 0 (by omega), ih2]
      simp [chunkResultContribution, chunkErrorContribution,
        chunkCacheContribution]

theorem flatten_map_eq_nil {α γ : Type _} (g : α → List γ) (l : List α)
    (h : ∀ x ∈ l, g x = []) : (l.map g).flatten = [] := by
  induction l with
  | nil => rfl
  | cons x rest ih =>
    rw [List.map_cons, List.flatten_cons, h x (List.mem_cons_self x rest),
      ih (fun y hy => h y (List.mem_cons_of_mem x hy))]
    rfl

/-- C2: When exactly one chunk's remote call fails at the transport layer
(position `pre.length` in completion order) and every other chunk succeeds,
`Files.scan` returns normally (never raises): the outcome's errors are
exactly one `Error` entry listing the failed chunk's `(filename, filemode)`
pairs, the results are the concatenated contributions of all completed chunks
— the failed chunk contributing nothing — so every successful sibling chunk's
results are present. -/
theorem scan_partial_failure_isolated {β : Type}
    (fsc : ScannedDoc β → ScannedDoc β)
    (oracle : List PayloadM → ChunkResponse β) (limit : Nat)
    (d : List (List Char × FileM))
    (completed pre post : List (List PayloadM)) (c0 : List PayloadM)
    (msg : List Char)
    (hperm : completed.Perm (chunkScannables limit (scannable_list d)))
    (hsplit : completed = pre ++ c0 :: post)
    (hfail : oracle c0 = .exc msg)
    (hok : ∀ c ∈ pre ++ post, ∃ srs, oracle c = .ok srs ∧
      srs.length ≤ c.length) :
    filesScan fsc oracle completed =
      .ok (⟨(completed.map
            (fun c => chunkResultContribution fsc (c, oracle c))).flatten,
          [⟨errFiles c0, msg⟩]⟩,
        (completed.map
          (fun c => chunkCacheContribution fsc (c, oracle c))).flatten) ∧
    chunkResultContribution fsc (c0, oracle c0) = [] := by
  have hwf : ∀ p ∈ completed.map (fun c => (c, oracle c)),
      ∀ srs, p.2 = ChunkResponse.ok srs → srs.length ≤ p.1.length := by
    intro p hp srs hsrs
    obtain ⟨c, hc, rfl⟩ := List.mem_map.mp hp
    rw [hsplit] at hc
    rcases List.mem_append.mp hc with hpre | hrest
    · obtain ⟨srs', hsrs', hlen⟩ := hok c (List.mem_append.mpr (Or.inl hpre))
      simp only at hsrs
      rw [hsrs'] at hsrs
      injection hsrs with he
      rw [← he]
      exact hlen
    · rcases List.mem_cons.mp hrest with heq | hpost
      · subst heq
        simp only at hsrs
        rw [hfail] at hsrs
        exact ChunkResponse.noConfusion hsrs
      · obtain ⟨srs', hsrs', hlen⟩ := hok c (List.mem_append.mpr (Or.inr hpost))
        simp only at hsrs
        rw [hsrs'] at hsrs
        injection hsrs with he
        rw [← he]
        exact hlen
  have hloop := filesScanLoop_ok fsc (completed.map (fun c => (c, oracle c))) hwf
  have herr : ((completed.map (fun c => (c, oracle c))).map
      chunkErrorContribution).flatten = [⟨errFiles c0, msg⟩] := by
    rw [List.map_map, hsplit, List.map_append, List.map_cons,
      List.flatten_append, List.flatten_cons]
    rw [flatten_map_eq_nil _ pre ?hpre, flatten_map_eq_nil _ post ?hpost]
    case hpre =>
      intro c hc
      obtain ⟨srs, hsrs, _⟩ := hok c (List.mem_append.mpr (Or.inl hc))
      simp only [Function.comp_apply, hsrs]
      rfl
    case hpost =>
      intro c hc
      obtain ⟨srs, hsrs, _⟩ := hok c (List.mem_append.mpr (Or.inr hc))
      simp only [Function.comp_apply, hsrs]
      rfl
    simp only [Function.comp_apply, hfail, List.nil_append]
    rfl
  rw [filesScan, hloop]
  refine ⟨?_, by rw [hfail]; rfl⟩
  rw [herr]
  rw [List.map_map, List.map_map]
  rfl

/-- Witness for C2: two single-document chunks, completed in reverse order;
the chunk holding document `a` fails at the transport layer with `boom`, the
chunk holding `b` succeeds with one finding.  The outcome keeps `b`'s result
and exactly one `Error` naming `(a, FILE)`. -/
theorem scan_partial_failure_isolated_witness :
    ([[(⟨"b".toList, "db".toList, .FILE⟩ : PayloadM)],
        [(⟨"a".toList, "da".toList, .FILE⟩ : PayloadM)]]).Perm
      (chunkScannables 1 (scannable_list (filesInit
        [⟨"da".toList, "a".toList, .FILE⟩, ⟨"db".toList, "b".toList, .FILE⟩]))) ∧
    filesScan (fun s : ScannedDoc Nat => s)
      (fun c => if c = [(⟨"b".toList, "db".toList, .FILE⟩ : PayloadM)]
        then ChunkResponse.ok [⟨[7]⟩] else ChunkResponse.exc ("boom".toList))
      [[(⟨"b".toList, "db".toList, .FILE⟩ : PayloadM)],
        [(⟨"a".toList, "da".toList, .FILE⟩ : PayloadM)]] =
      .ok (⟨[⟨"db".toList, .FILE, "b".toList, ⟨[7]⟩⟩],
          [⟨[("a".toList, Filemode.FILE)], "boom".toList⟩]⟩,
        [(7, "b".toList)]) := by
  have hchunks : chunkScannables 1 (scannable_list (filesInit
      [⟨"da".toList, "a".toList, .FILE⟩, ⟨"db".toList, "b".toList, .FILE⟩])) =
      [[(⟨"a".toList, "da".toList, .FILE⟩ : PayloadM)],
        [(⟨"b".toList, "db".toList, .FILE⟩ : PayloadM)]] := by
    show chunkScannables 1
      [(⟨"a".toList, "da".toList, .FILE⟩ : PayloadM),
        (⟨"b".toList, "db".toList, .FILE⟩ : PayloadM)] = _
    simp [chunkScannables]
  have hperm : ([[(⟨"b".toList, "db".toList, .FILE⟩ : PayloadM)],
      [(⟨"a".toList, "da".toList, .FILE⟩ : PayloadM)]]).Perm
      (chunkScannables 1 (scannable_list (filesInit
        [⟨"da".toList, "a".toList, .FILE⟩, ⟨"db".toList, "b".toList, .FILE⟩]))) := by
    rw [hchunks]
    exact List.Perm.swap _ _ _
  have h := scan_partial_failure_isolated (fun s : ScannedDoc Nat => s)
    (fun c => if c = [(⟨"b".toList, "db".toList, .FILE⟩ : PayloadM)]
      then ChunkResponse.ok [⟨[7]⟩] else ChunkResponse.exc ("boom".toList))
    1
    (filesInit [⟨"da".toList, "a".toList, .FILE⟩, ⟨"db".toList, "b".toList, .FILE⟩])
    [[(⟨"b".toList, "db".toList, .FILE⟩ : PayloadM)],
      [(⟨"a".toList, "da".toList, .FILE⟩ : PayloadM)]]
    [[(⟨"b".toList, "db".toList, .FILE⟩ : PayloadM)]]
    []
    [(⟨"a".toList, "da".toList, .FILE⟩ : PayloadM)]
    ("boom".toList)
    hperm
    rfl
    (by decide)
    (by
      intro c hc
      simp only [List.append_nil, List.mem_singleton] at hc
      subst hc
      exact ⟨[⟨[7]⟩], by simp, by simp⟩)
  exact ⟨hperm, h.1.trans (by decide)⟩

/-- Counterexample to C8: two single-document chunks submitted as
`[[x], [y]]` which both succeed with one finding each; when their network
calls complete in the order `[[y], [x]]` (a permutation of the submitted
chunks), the accumulated results are `[result_y, result_x]` — the completion
order — which differs from the submission-order list `[result_x, result_y]`.
The accumulated results therefore do not preserve the original chunk order
independent of completion order. -/
theorem scan_results_completion_order_counterexample :
    ([[(⟨"y".toList, "dy".toList, .FILE⟩ : PayloadM)],
        [(⟨"x".toList, "dx".toList, .FILE⟩ : PayloadM)]]).Perm
      (chunkScannables 1 (scannable_list (filesInit
        [⟨"dx".toList, "x".toList, .FILE⟩, ⟨"dy".toList, "y".toList, .FILE⟩]))) ∧
    filesScan (fun s : ScannedDoc Nat => s)
      (fun c => if c = [(⟨"x".toList, "dx".toList, .FILE⟩ : PayloadM)]
        then ChunkResponse.ok [⟨[1]⟩] else ChunkResponse.ok [⟨[2]⟩])
      [[(⟨"y".toList, "dy".toList, .FILE⟩ : PayloadM)],
        [(⟨"x".toList, "dx".toList, .FILE⟩ : PayloadM)]] =
      .ok (⟨[⟨"dy".toList, .FILE, "y".toList, ⟨[2]⟩⟩,
            ⟨"dx".toList, .FILE, "x".toList, ⟨[1]⟩⟩], []⟩,
        [(2, "y".toList), (1, "x".toList)]) ∧
    ((chunkScannables 1 (scannable_list (filesInit
        [⟨"dx".toList, "x".toList, .FILE⟩, ⟨"dy".toList, "y".toList, .FILE⟩]))).map
      (fun c => chunkResultContribution (fun s : ScannedDoc Nat => s)
        (c, if c = [(⟨"x".toList, "dx".toList, .FILE⟩ : PayloadM)]
          then ChunkResponse.ok [⟨[1]⟩] else ChunkResponse.ok [⟨[2]⟩]))).flatten =
      [⟨"dx".toList, .FILE, "x".toList, ⟨[1]⟩⟩,
        ⟨"dy".toList, .FILE, "y".toList, ⟨[2]⟩⟩] ∧
    ([(⟨"dy".toList, .FILE, "y".toList, ⟨[2]⟩⟩ : ResultM Nat),
        ⟨"dx".toList, .FILE, "x".toList, ⟨[1]⟩⟩] ≠
      [⟨"dx".toList, .FILE, "x".toList, ⟨[1]⟩⟩,
        ⟨"dy".toList, .FILE, "y".toList, ⟨[2]⟩⟩]) := by
  have hchunks : chunkScannables 1 (scannable_list (filesInit
      [⟨"dx".toList, "x".toList, .FILE⟩, ⟨"dy".toList, "y".toList, .FILE⟩])) =
      [[(⟨"x".toList, "dx".toList, .FILE⟩ : PayloadM)],
        [(⟨"y".toList, "dy".toList, .FILE⟩ : PayloadM)]] := by
    show chunkScannables 1
      [(⟨"x".toList, "dx".toList, .FILE⟩ : PayloadM),
        (⟨"y".toList, "dy".toList, .FILE⟩ : PayloadM)] = _
    simp [chunkScannables]
  refine ⟨?_, by decide, ?_, by decide⟩
  · rw [hchunks]
    exact List.Perm.swap _ _ _
  · rw [hchunks]
    decide

/-- C8 as amended: the accumulated results preserve the original unit order
within each chunk (a successful chunk contributes its kept documents in
submitted index order, per `chunkResultContribution`), but across chunks the
results — like the errors and the cache additions — are concatenated in the
order the chunk network calls complete, not in the original chunk submission
order. -/
theorem scan_results_follow_completion_order {β : Type}
    (fsc : ScannedDoc β → ScannedDoc β)
    (oracle : List PayloadM → ChunkResponse β) (limit : Nat)
    (d : List (List Char × FileM)) (completed : List (List PayloadM))
    (hperm : completed.Perm (chunkScannables limit (scannable_list d)))
    (hwf : ∀ c ∈ completed, ∀ srs, oracle c = ChunkResponse.ok srs →
      srs.length ≤ c.length) :
    filesScan fsc oracle completed =
      .ok (⟨(completed.map
            (fun c => chunkResultContribution fsc (c, oracle c))).flatten,
          (completed.map
            (fun c => chunkErrorContribution (c, oracle c))).flatten⟩,
        (completed.map
          (fun c => chunkCacheContribution fsc (c, oracle c))).flatten) := by
  have hwf2 : ∀ p ∈ completed.map (fun c => (c, oracle c)),
      ∀ srs, p.2 = ChunkResponse.ok srs → srs.length ≤ p.1.length := by
    intro p hp srs hsrs
    obtain ⟨c, hc, rfl⟩ := List.mem_map.mp hp
    exact hwf c hc srs hsrs
  rw [filesScan, filesScanLoop_ok fsc _ hwf2, List.map_map, List.map_map,
    List.map_map]
  rfl

/-- Witness for C8 as amended: a single successful one-document chunk yields
exactly its contribution. -/
theorem scan_results_follow_completion_order_witness :
    ([[(⟨"z".toList, "dz".toList, .FILE⟩ : PayloadM)]]).Perm
      (chunkScannables 1 (scannable_list (filesInit
        [⟨"dz".toList, "z".toList, .FILE⟩]))) ∧
    filesScan (fun s : ScannedDoc Nat => s)
      (fun _ => ChunkResponse.ok [⟨[3]⟩])
      [[(⟨"z".toList, "dz".toList, .FILE⟩ : PayloadM)]] =
      .ok (⟨[⟨"dz".toList, .FILE, "z".toList, ⟨[3]⟩⟩], []⟩,
        [(3, "z".toList)]) := by
  have hchunks : chunkScannables 1 (scannable_list (filesInit
      [⟨"dz".toList, "z".toList, .FILE⟩])) =
      [[(⟨"z".toList, "dz".toList, .FILE⟩ : PayloadM)]] := by
    show chunkScannables 1 [(⟨"z".toList, "dz".toList, .FILE⟩ : PayloadM)] = _
    simp [chunkScannables]
  have hperm : ([[(⟨"z".toList, "dz".toList, .FILE⟩ : PayloadM)]]).Perm
      (chunkScannables 1 (scannable_list (filesInit
        [⟨"dz".toList, "z".toList, .FILE⟩]))) := by
    rw [hchunks]
  have h := scan_results_follow_completion_order (fun s : ScannedDoc Nat => s)
    (fun _ => ChunkResponse.ok [⟨[3]⟩]) 1
    (filesInit [⟨"dz".toList, "z".toList, .FILE⟩])
    [[(⟨"z".toList, "dz".toList, .FILE⟩ : PayloadM)]]
    hperm
    (by
      intro c hc srs hsrs
      simp only [List.mem_singleton] at hc
      subst hc
      injection hsrs with he
      rw [← he]
      simp)
  exact ⟨hperm, h.trans (by decide)⟩

end GgshieldSpec
